import Mathlib

/-!
Verification of the habit scheduling / streak / adherence engine of the
`lauamat/habitos` application.

Embedding conventions:
* Calendar dates are integers counting days since an epoch; the canonical
  `YYYY-MM-DD` boundary strings are in bijection with these day numbers, and
  all timestamps are taken date-aligned (midnight), so JavaScript's
  `Math.floor((a.getTime() - b.getTime()) / 86400000)` is exact integer
  subtraction of day numbers.
* JavaScript `%` followed by `=== 0` agrees with `Int.emod _ 2 = 0` on every
  integer (JS `-2 % 2` is `-0`, and `-0 === 0`), so evenness tests translate
  to `% 2 = 0` on `Int`.
* The unbounded `while (true)` walks of the streak calculators are embedded
  with an explicit fuel parameter; `none` means the walk has not finished
  within `fuel` iterations.
* Lists model JS arrays; `Array.prototype.sort` (stable, comparator-based) is
  modelled by `List.insertionSort` with the weak relation "the comparator does
  not put `b` strictly before `a`", which is the standard extensional model of
  a stable comparator sort.
-/

namespace Habitos

/-- Weekday names as produced by `format(date, 'EEEE').toLowerCase()`;
day number `0` of the epoch is taken to be a Monday. -/
def weekdayNames : List String :=
  ["monday", "tuesday", "wednesday", "thursday", "friday", "saturday", "sunday"]

/-- The lowercase weekday name of a date. -/
def dayName (d : Int) : String :=
  weekdayNames.getD (d.emod 7).toNat ""

/-- The fields of a `Habit` row that the scheduling core reads.
`frequency_type` is kept as a raw string because the code switches on it and
falls through to a default for unrecognized values; `custom_days` is optional
(`habit.custom_days?.includes(...)`). -/
structure Habit where
  id : String
  frequency_type : String
  custom_days : Option (List String)
  created_at : Int
  is_active : Bool
deriving Repr, DecidableEq

/-- The fields of a `HabitCompletion` row that the core reads. -/
structure HabitCompletion where
  habit_id : String
  completion_date : Int
deriving Repr, DecidableEq

/-- `completions.some(c => c.habit_id === habitId && c.completion_date === dateStr)`. -/
def hasCompletionFor (completions : List HabitCompletion) (habitId : String)
    (date : Int) : Bool :=
  completions.any fun c => c.habit_id == habitId && c.completion_date == date

/-- `completions.some(c => c.completion_date === dateStr)` (no habit filter). -/
def hasCompletionOn (completions : List HabitCompletion) (date : Int) : Bool :=
  completions.any fun c => c.completion_date == date

/-- `shouldShowHabitOnDate` as written (identically) in `App.tsx`,
`EnhancedAnalyticsDashboard.tsx`, `WeeklyCalendar.tsx` and `AnalyticsChart`:
daily is always due; alternate is due iff the floored whole-day offset from
`created_at` is non-negative and even; custom is due iff the weekday name is a
member of `custom_days` (absent set treated as never due via `?.` + `|| false`);
any other frequency string is never due. -/
def shouldShowHabitOnDate (habit : Habit) (date : Int) : Bool :=
  if habit.frequency_type = "daily" then
    true
  else if habit.frequency_type = "alternate" then
    let daysSinceCreation := date - habit.created_at
    decide (0 ≤ daysSinceCreation) && decide (daysSinceCreation % 2 = 0)
  else if habit.frequency_type = "custom" then
    (habit.custom_days.getD []).contains (dayName date)
  else
    false

/-- `shouldHaveHabitOnDate` from `HabitCard.tsx`: same switch, but the
alternate branch is `daysSinceCreation % 2 === 0` with NO non-negativity
guard, so even negative offsets also test true (JS `-2 % 2` is `-0 === 0`). -/
def shouldHaveHabitOnDate (date : Int) (habit : Habit) : Bool :=
  if habit.frequency_type = "daily" then
    true
  else if habit.frequency_type = "alternate" then
    decide ((date - habit.created_at) % 2 = 0)
  else if habit.frequency_type = "custom" then
    (habit.custom_days.getD []).contains (dayName date)
  else
    false

/-- The `while (true)` body of `calculateCurrentStreak`
(`EnhancedAnalyticsDashboard.tsx`, cap 365; the public-profile copy in the
unnamed source file uses cap 100), with explicit fuel.  Each iteration:
if the habit is due and completed, increment the streak; if due and not
completed, break returning the streak; otherwise leave the streak unchanged;
then step one day back and break if `streak > cap`. -/
def calcStreakLoop (cap : Nat) (habit : Habit) (hc : List HabitCompletion)
    (streak : Nat) (checkDate : Int) : Nat → Option Nat
  | 0 => none
  | fuel + 1 =>
    let hasCompletion := hasCompletionOn hc checkDate
    let shouldHaveHabit := shouldShowHabitOnDate habit checkDate
    if shouldHaveHabit then
      if hasCompletion then
        let streak' := streak + 1
        if cap < streak' then some streak'
        else calcStreakLoop cap habit hc streak' (checkDate - 1) fuel
      else some streak
    else
      if cap < streak then some streak
      else calcStreakLoop cap habit hc streak (checkDate - 1) fuel

/-- `calculateCurrentStreak(habit, completions)`: filter the completions
down to this habit, return 0 immediately when there are none, otherwise run
the backward walk from today.  (The source also sorts the filtered list by
date; the walk only membership-tests it, so the sort is order-irrelevant and
omitted.)  `fuel` bounds the number of loop iterations; `none` means the walk
did not finish within `fuel` iterations. -/
def calculateCurrentStreak (cap : Nat) (habit : Habit)
    (completions : List HabitCompletion) (today : Int) (fuel : Nat) :
    Option Nat :=
  let habitCompletions := completions.filter fun c => c.habit_id == habit.id
  if habitCompletions.isEmpty then some 0
  else calcStreakLoop cap habit habitCompletions 0 today fuel

/-- The `while (true)` body of `calculateStreak` in `HabitCard.tsx`:
if ANY completion exists for the visited date (no due-ness check), increment
the streak; otherwise break only if the habit was due that date; then step
one day back and break if `streak > 100`. -/
def hcStreakLoop (habit : Habit) (completions : List HabitCompletion)
    (streak : Nat) (currentDate : Int) : Nat → Option Nat
  | 0 => none
  | fuel + 1 =>
    if hasCompletionOn completions currentDate then
      let streak' := streak + 1
      if 100 < streak' then some streak'
      else hcStreakLoop habit completions streak' (currentDate - 1) fuel
    else if shouldHaveHabitOnDate currentDate habit then some streak
    else if 100 < streak then some streak
    else hcStreakLoop habit completions streak (currentDate - 1) fuel

/-- `calculateStreak(completions, habit)` from `HabitCard.tsx` (the card is
given the completions of its own habit, so there is no habit-id filter). -/
def calculateStreak (completions : List HabitCompletion) (habit : Habit)
    (today : Int) (fuel : Nat) : Option Nat :=
  if completions.isEmpty then some 0
  else hcStreakLoop habit completions 0 today fuel

/-- Aggregate counters `{ completed, planned }` returned by the window
aggregation helpers. -/
structure Stats where
  completed : Nat
  planned : Nat
deriving Repr, DecidableEq

/-- The shared per-(habit, date) tally step: if the habit is due on the date,
increment `planned` and increment `completed` when a matching completion
exists; otherwise leave the counters unchanged. -/
def tallyHabit (completions : List HabitCompletion) (date : Int)
    (acc : Stats) (habit : Habit) : Stats :=
  if shouldShowHabitOnDate habit date then
    { completed :=
        acc.completed + (if hasCompletionFor completions habit.id date then 1 else 0),
      planned := acc.planned + 1 }
  else acc

/-- The inclusive calendar-date window `[s, e]` as a list, in order; empty
when `s > e` (the `while (currentDate <= endDate)` loop runs zero times). -/
def dateRange (s e : Int) : List Int :=
  (List.range (e - s + 1).toNat).map fun i => s + i

/-- `getWeekStats(weekStart, weekEnd, habits, completions)` from the
`AnalyticsChart` component: iterate every date of the window, and for each
date every habit, tallying planned/completed. -/
def getWeekStats (s e : Int) (habits : List Habit)
    (completions : List HabitCompletion) : Stats :=
  (dateRange s e).foldl
    (fun acc date => habits.foldl (tallyHabit completions date) acc)
    ⟨0, 0⟩

/-- The single-habit window tally: `getWeekStatsForHabit` in `AnalyticsChart`
and the inline `while (currentDate <= endDate)` loop of
`calculateAbandonedHabits` in `MostAbandonedHabits.tsx` (identical logic). -/
def perHabitWindowCounts (s e : Int) (habit : Habit)
    (completions : List HabitCompletion) : Stats :=
  (dateRange s e).foldl
    (fun acc date => tallyHabit completions date acc habit)
    ⟨0, 0⟩

/-- `getCompletionStats(habits, completions, days)` from
`EnhancedAnalyticsDashboard.tsx`: for `i = 0 .. days-1` tally every habit on
`subDays(endDate, i)`. -/
def getCompletionStats (habits : List Habit)
    (completions : List HabitCompletion) (days : Nat) (endDate : Int) :
    Stats :=
  (List.range days).foldl
    (fun acc i => habits.foldl (tallyHabit completions (endDate - (i : Int))) acc)
    ⟨0, 0⟩

/-- The ternary `planned > 0 ? (completed / planned) * 100 : 0` used for every
rate display (`calculateStats`, `AnalyticsChart`, ...). -/
def completionRate (completed planned : Nat) : ℚ :=
  if 0 < planned then (completed : ℚ) / (planned : ℚ) * 100 else 0

/-- An entry of the `MostAbandonedHabits` ranking. -/
structure AbandonedHabit where
  habit : Habit
  missedDays : Nat
  plannedDays : Nat
  failureRate : ℚ
deriving Repr, DecidableEq

/-- The per-habit body of `calculateAbandonedHabits`' `forEach`: tally the
window, and push an entry (with `missed = planned - completed` and
`failureRate = missed / planned * 100`) only when `plannedDays > 0`. -/
def abandonedEntry (completions : List HabitCompletion) (s e : Int)
    (habit : Habit) : Option AbandonedHabit :=
  let st := perHabitWindowCounts s e habit completions
  if 0 < st.planned then
    let missedDays := st.planned - st.completed
    some { habit := habit, missedDays := missedDays, plannedDays := st.planned,
           failureRate := (missedDays : ℚ) / (st.planned : ℚ) * 100 }
  else none

/-- The unsorted `habitStats` list of `calculateAbandonedHabits` after its
`.filter(h => h.failureRate > 0)` step: the entries pushed for the active
habits, with the no-failure entries dropped. -/
def abandonedPool (habits : List Habit) (completions : List HabitCompletion)
    (s e : Int) : List AbandonedHabit :=
  ((habits.filter (·.is_active)).filterMap (abandonedEntry completions s e)).filter
    fun h => decide (0 < h.failureRate)

/-- The comparator order of `calculateAbandonedHabits`' `.sort`: `a` may be
placed before `b` when the comparator does not demand `b` first, i.e. `a` has
a strictly higher failure rate, or an equal rate and at least as many missed
days.  (`cmp(a,b) = b.failureRate - a.failureRate`, ties
`b.missedDays - a.missedDays`.) -/
def rankedBefore (a b : AbandonedHabit) : Prop :=
  b.failureRate < a.failureRate ∨
    (a.failureRate = b.failureRate ∧ b.missedDays ≤ a.missedDays)

instance : DecidableRel rankedBefore := fun a b => by
  unfold rankedBefore; infer_instance

/-- `calculateAbandonedHabits(habits, completions)` over the window `[s, e]`:
the pooled entries, stably sorted by descending failure rate with ties broken
by descending missed count (JS `Array.prototype.sort` is stable;
`List.insertionSort` with the weak comparator order models it exactly). -/
def calculateAbandonedHabits (habits : List Habit)
    (completions : List HabitCompletion) (s e : Int) : List AbandonedHabit :=
  List.insertionSort rankedBefore (abandonedPool habits completions s e)

/-- One bucket of the day-granularity per-habit chart series: the
`activeHabits.forEach` of `AnalyticsChart`'s `chartData` (day view, per-habit
mode), which writes `dataPoint[habit.id] = hasCompletion ? 100 : 0` only for
selected habits that are due on the date.  Modelled as the association list
of `(habit id, value)` entries in iteration order. -/
def dayViewPerHabitPoint (habits : List Habit) (selected : List String)
    (completions : List HabitCompletion) (date : Int) :
    List (String × ℚ) :=
  (habits.filter (·.is_active)).filterMap fun habit =>
    if selected.contains habit.id && shouldShowHabitOnDate habit date then
      some (habit.id,
        if hasCompletionFor completions habit.id date then (100 : ℚ) else 0)
    else none

/-- The day-view per-habit `chartData` loop of `AnalyticsChart`:
for `i = 0 .. dateRange`, emit the bucket for `subDays(endDate, dateRange - i)`
(chronological order). -/
def chartDataDayPerHabit (habits : List Habit) (selected : List String)
    (completions : List HabitCompletion) (endDate : Int) (range : Nat) :
    List (Int × List (String × ℚ)) :=
  (List.range (range + 1)).map fun i =>
    let date := endDate - ((range : Int) - (i : Int))
    (date, dayViewPerHabitPoint habits selected completions date)

/-- An invocation of one of the core components, with all of its inputs
(including the current date and, for the streak walk, its fuel). -/
inductive CoreCall where
  | isDueQ (habit : Habit) (date : Int)
  | streakQ (cap : Nat) (habit : Habit) (completions : List HabitCompletion)
      (today : Int) (fuel : Nat)
  | aggQ (s e : Int) (habits : List Habit) (completions : List HabitCompletion)
  | bucketQ (habits : List Habit) (selected : List String)
      (completions : List HabitCompletion) (endDate : Int) (range : Nat)
deriving Repr, DecidableEq

/-- The result of a core invocation. -/
inductive CoreResult where
  | bool (b : Bool)
  | natOpt (n : Option Nat)
  | stats (s : Stats)
  | series (l : List (Int × List (String × ℚ)))
deriving Repr, DecidableEq

/-- Dispatch one core invocation to the corresponding component. -/
def runCall : CoreCall → CoreResult
  | .isDueQ habit date => .bool (shouldShowHabitOnDate habit date)
  | .streakQ cap habit completions today fuel =>
      .natOpt (calculateCurrentStreak cap habit completions today fuel)
  | .aggQ s e habits completions => .stats (getWeekStats s e habits completions)
  | .bucketQ habits selected completions endDate range =>
      .series (chartDataDayPerHabit habits selected completions endDate range)

/-- Run a sequence of core invocations in order, collecting the results. -/
def runCalls (calls : List CoreCall) : List CoreResult :=
  calls.map runCall

/-! ## General helper lemmas -/

/-- A fold preserves any invariant preserved by its step function. -/
theorem foldl_invariant {α β : Type} (P : β → Prop) (f : β → α → β)
    (step : ∀ b a, P b → P (f b a)) :
    ∀ (l : List α) (init : β), P init → P (l.foldl f init)
  | [], _, h => h
  | x :: xs, init, h => foldl_invariant P f step xs (f init x) (step init x h)

/-- Membership testing a filtered list is membership testing with the
conjunction of the predicates. -/
theorem hasCompletionOn_filter (cs : List HabitCompletion) (habitId : String)
    (d : Int) :
    hasCompletionOn (cs.filter fun c => c.habit_id == habitId) d =
      hasCompletionFor cs habitId d := by
  simp only [hasCompletionOn, hasCompletionFor, List.any_filter]

/-- The window list is empty when the start date is after the end date. -/
theorem dateRange_of_inverted {s e : Int} (h : e < s) : dateRange s e = [] := by
  have : (e - s + 1).toNat = 0 := by omega
  simp [dateRange, this]

/-! ## C1: the streak walk's cap does not bound the calendar days walked -/

/-- Never-due habit used for the C1 failing input: `Custom` frequency with an
empty `custom_days` set (a state §3 of the spec calls valid but degenerate). -/
def c1Habit : Habit :=
  { id := "n", frequency_type := "custom", custom_days := some [],
    created_at := 0, is_active := true }

/-- A single completion recorded for that habit (on day 2). -/
def c1Completions : List HabitCompletion := [⟨"n", 2⟩]

theorem c1Habit_never_due (d : Int) : shouldShowHabitOnDate c1Habit d = false := by
  simp [shouldShowHabitOnDate, c1Habit]

theorem c1Habit_never_due_hc (d : Int) : shouldHaveHabitOnDate d c1Habit = false := by
  simp [shouldHaveHabitOnDate, c1Habit]

theorem c1_loop_none (hc : List HabitCompletion) :
    ∀ (fuel : Nat) (streak : Nat) (d : Int), streak ≤ 365 →
      calcStreakLoop 365 c1Habit hc streak d fuel = none
  | 0, _, _, _ => rfl
  | fuel + 1, streak, d, hstreak => by
    rw [calcStreakLoop]
    simp only [c1Habit_never_due, if_false, Bool.false_eq_true]
    rw [if_neg (by omega)]
    exact c1_loop_none hc fuel streak (d - 1) hstreak

theorem c1_hcLoop_none :
    ∀ (fuel : Nat) (streak : Nat) (d : Int),
      streak + (if 2 ≤ d then 1 else 0) ≤ 100 →
      hcStreakLoop c1Habit c1Completions streak d fuel = none
  | 0, _, _, _ => rfl
  | fuel + 1, streak, d, hstreak => by
    rw [hcStreakLoop]
    by_cases hd : d = 2
    · subst hd
      have hc : hasCompletionOn c1Completions 2 = true := by decide
      rw [hc]
      simp only [if_true]
      have h1 : streak + 1 ≤ 100 := by simp at hstreak; omega
      rw [if_neg (by omega)]
      exact c1_hcLoop_none fuel (streak + 1) 1 (by norm_num; omega)
    · have hc : hasCompletionOn c1Completions d = false := by
        simp [hasCompletionOn, c1Completions]
        omega
      rw [hc]
      simp only [Bool.false_eq_true, if_false, c1Habit_never_due_hc]
      have hs : streak ≤ 100 := by split at hstreak <;> omega
      rw [if_neg (by omega)]
      refine c1_hcLoop_none fuel streak (d - 1) ?_
      split at hstreak <;> split <;> omega

/-- C1: REFUTED (code bug).  The claim — the backward streak walk always
terminates within 365 walked calendar days and returns the accumulated count
at the cap — fails on the code: the guards `if (streak > 365) break` (analytics
dashboard) and `if (streak > 100) break` (HabitCard, public profile) count the
accumulated STREAK, not the calendar days walked.  For a habit that is never
due (e.g. `Custom` with an empty day set) holding at least one completion
record, the streak never grows past the cap and the `while (true)` loop never
breaks: for every fuel bound the embedded walk fails to finish, contradicting
the code's own `// Prevent infinite loop` comments. -/
theorem c1_streak_walk_diverges :
    (∀ fuel, calculateCurrentStreak 365 c1Habit c1Completions 5 fuel = none) ∧
    (∀ fuel, calculateStreak c1Completions c1Habit 5 fuel = none) := by
  constructor
  · intro fuel
    rw [calculateCurrentStreak]
    have : (c1Completions.filter fun c => c.habit_id == c1Habit.id).isEmpty = false := by
      decide
    simp only [this, Bool.false_eq_true, if_false]
    exact c1_loop_none _ fuel 0 5 (by omega)
  · intro fuel
    rw [calculateStreak]
    have : c1Completions.isEmpty = false := by decide
    simp only [this, Bool.false_eq_true, if_false]
    exact c1_hcLoop_none fuel 0 5 (by norm_num)

/-! ## C2: alternate-day parity anchored at the creation date -/

/-- C2 (amended): for every `Alternate` habit and date, the guarded schedule
evaluator (`App.tsx`, the analytics dashboard, and the calendar components)
is due exactly when the whole-day offset from `created_at` is non-negative
and even — in particular due on the creation day and never due strictly
before it; `HabitCard.tsx`'s evaluator omits the non-negativity check, so it
is due exactly when the offset is even, which also makes dates an even number
of whole days BEFORE the creation date count as due. -/
theorem c2_alternate_parity (habit : Habit) (d : Int)
    (hfreq : habit.frequency_type = "alternate") :
    (shouldShowHabitOnDate habit d = true ↔
      0 ≤ d - habit.created_at ∧ (d - habit.created_at) % 2 = 0) ∧
    (shouldHaveHabitOnDate d habit = true ↔ (d - habit.created_at) % 2 = 0) := by
  constructor
  · simp [shouldShowHabitOnDate, hfreq]
  · simp [shouldHaveHabitOnDate, hfreq]

/-- Witness for `c2_alternate_parity` at a concrete habit and date. -/
theorem c2_alternate_parity_witness :
    shouldShowHabitOnDate
      { id := "w2", frequency_type := "alternate", custom_days := none,
        created_at := 4, is_active := true } 6 = true ↔
      0 ≤ (6 : Int) - 4 ∧ ((6 : Int) - 4) % 2 = 0 :=
  (c2_alternate_parity
    { id := "w2", frequency_type := "alternate", custom_days := none,
      created_at := 4, is_active := true } 6 rfl).1

/-- C2 counterexample: the claim as stated — `isDue` is false for every date
strictly before the creation date — fails on `HabitCard.tsx`'s evaluator: a
date two whole days before creation is reported due (JS `-2 % 2` is `-0`,
which `=== 0`). -/
theorem c2_due_before_creation :
    shouldHaveHabitOnDate 8
      { id := "x", frequency_type := "alternate", custom_days := none,
        created_at := 10, is_active := true } = true ∧
    (8 : Int) <
      ({ id := "x", frequency_type := "alternate", custom_days := none,
         created_at := 10, is_active := true } : Habit).created_at := by
  constructor
  · decide
  · decide

/-! ## C7: fail-safe defaults of the schedule evaluator -/

/-- C7: a habit with an unrecognized `frequencyType`, or a `Custom` habit with
an absent or empty `customDays` set, is never due on any date; the evaluator
resolves these degenerate inputs to `false` (it is a total function — nothing
is thrown). -/
theorem c7_fail_safe_never_due (habit : Habit) (d : Int) :
    (habit.frequency_type ≠ "daily" → habit.frequency_type ≠ "alternate" →
      habit.frequency_type ≠ "custom" → shouldShowHabitOnDate habit d = false) ∧
    (habit.frequency_type = "custom" →
      (habit.custom_days = none ∨ habit.custom_days = some []) →
      shouldShowHabitOnDate habit d = false) := by
  constructor
  · intro h1 h2 h3
    simp [shouldShowHabitOnDate, h1, h2, h3]
  · intro h1 h2
    rcases h2 with h2 | h2 <;>
      simp [shouldShowHabitOnDate, h1, h2,
        show habit.frequency_type ≠ "daily" by simp [h1],
        show habit.frequency_type ≠ "alternate" by simp [h1]]

/-- Witness for `c7_fail_safe_never_due` at concrete degenerate habits. -/
theorem c7_fail_safe_never_due_witness :
    shouldShowHabitOnDate
      { id := "w7a", frequency_type := "weekly", custom_days := none,
        created_at := 0, is_active := true } 3 = false ∧
    shouldShowHabitOnDate
      { id := "w7b", frequency_type := "custom", custom_days := some [],
        created_at := 0, is_active := true } 3 = false :=
  ⟨(c7_fail_safe_never_due
      { id := "w7a", frequency_type := "weekly", custom_days := none,
        created_at := 0, is_active := true } 3).1
      (by decide) (by decide) (by decide),
   (c7_fail_safe_never_due
      { id := "w7b", frequency_type := "custom", custom_days := some [],
        created_at := 0, is_active := true } 3).2 rfl (Or.inr rfl)⟩

/-! ## C3: how the analytics streak walk treats each visited date -/

/-- The analytics streak walk consults the completion set only on dates where
the habit is due: two completion sets agreeing on every due date drive the
walk identically. -/
theorem calcStreakLoop_congr (cap : Nat) (habit : Habit)
    (hc₁ hc₂ : List HabitCompletion)
    (h : ∀ d, shouldShowHabitOnDate habit d = true →
      hasCompletionOn hc₁ d = hasCompletionOn hc₂ d) :
    ∀ (fuel : Nat) (streak : Nat) (d : Int),
      calcStreakLoop cap habit hc₁ streak d fuel =
        calcStreakLoop cap habit hc₂ streak d fuel
  | 0, _, _ => rfl
  | fuel + 1, streak, d => by
    rw [calcStreakLoop, calcStreakLoop]
    by_cases hdue : shouldShowHabitOnDate habit d = true
    · rw [h d hdue]
      simp only [hdue, if_true]
      by_cases hcomp : hasCompletionOn hc₂ d = true
      · simp only [hcomp, if_true]
        split
        · rfl
        · exact calcStreakLoop_congr cap habit hc₁ hc₂ h fuel (streak + 1) (d - 1)
      · simp only [Bool.not_eq_true] at hcomp
        simp only [hcomp, Bool.false_eq_true, if_false]
    · simp only [Bool.not_eq_true] at hdue
      simp only [hdue, Bool.false_eq_true, if_false]
      split
      · rfl
      · exact calcStreakLoop_congr cap habit hc₁ hc₂ h fuel streak (d - 1)

/-- C3 (amended): for the analytics `calculateCurrentStreak` walk, each
visited date is handled as the claim states (due + completed increments, not
due skips), so the returned streak depends only on which DUE dates carry a
completion — replacing the completion set by any other set that agrees on
every due date (and leaves the habit's filtered list nonempty iff it was,
since an empty list short-circuits to 0 before the walk) yields the identical
result for every fuel bound.  `HabitCard.tsx`'s `calculateStreak` does NOT
satisfy this: it increments the streak for a completion on a date the habit
is not due (see the counterexample). -/
theorem c3_non_due_completions_irrelevant (cap : Nat) (habit : Habit)
    (cs₁ cs₂ : List HabitCompletion) (asOf : Int)
    (hempty : (cs₁.filter fun c => c.habit_id == habit.id).isEmpty =
      (cs₂.filter fun c => c.habit_id == habit.id).isEmpty)
    (hdue : ∀ d, shouldShowHabitOnDate habit d = true →
      hasCompletionFor cs₁ habit.id d = hasCompletionFor cs₂ habit.id d) :
    ∀ fuel, calculateCurrentStreak cap habit cs₁ asOf fuel =
      calculateCurrentStreak cap habit cs₂ asOf fuel := by
  intro fuel
  rw [calculateCurrentStreak, calculateCurrentStreak]
  by_cases h : (cs₂.filter fun c => c.habit_id == habit.id).isEmpty = true
  · rw [hempty, h]
    simp
  · simp only [Bool.not_eq_true] at h
    rw [hempty, h]
    simp only [Bool.false_eq_true, if_false]
    refine calcStreakLoop_congr cap habit _ _ ?_ fuel 0 asOf
    intro d hd
    rw [hasCompletionOn_filter, hasCompletionOn_filter]
    exact hdue d hd

/-- Witness for `c3_non_due_completions_irrelevant`: dropping a completion
recorded on day 1 — a non-due day for an alternate habit created on day 0 —
does not change the analytics streak. -/
theorem c3_non_due_completions_irrelevant_witness :
    calculateCurrentStreak 365
        { id := "a", frequency_type := "alternate", custom_days := none,
          created_at := 0, is_active := true }
        [⟨"a", 0⟩, ⟨"a", 1⟩] 1 10 =
      calculateCurrentStreak 365
        { id := "a", frequency_type := "alternate", custom_days := none,
          created_at := 0, is_active := true }
        [⟨"a", 0⟩] 1 10 := by
  refine c3_non_due_completions_irrelevant 365
    { id := "a", frequency_type := "alternate", custom_days := none,
      created_at := 0, is_active := true }
    [⟨"a", 0⟩, ⟨"a", 1⟩] [⟨"a", 0⟩] 1 (by decide) ?_ 10
  intro d hd
  by_cases h1 : d = 1
  · subst h1
    exact absurd hd (by decide)
  · simp only [hasCompletionFor, List.any_cons, List.any_nil]
    have : ((1 : Int) == d) = false := by
      simp only [beq_eq_false_iff_ne, ne_eq]
      omega
    simp [this]

/-- C3 counterexample: the claim as stated fails on `HabitCard.tsx`'s
`calculateStreak`: for an alternate habit created on day 0, a completion
recorded on day 1 — a date the habit is NOT due — changes the returned streak
from 0 to 1 (the walk increments for ANY completion before checking
due-ness). -/
theorem c3_habitcard_counts_non_due_completion :
    calculateStreak [⟨"a", 1⟩]
      { id := "a", frequency_type := "alternate", custom_days := none,
        created_at := 0, is_active := true } 1 10 = some 1 ∧
    calculateStreak []
      { id := "a", frequency_type := "alternate", custom_days := none,
        created_at := 0, is_active := true } 1 10 = some 0 ∧
    shouldHaveHabitOnDate 1
      { id := "a", frequency_type := "alternate", custom_days := none,
        created_at := 0, is_active := true } = false := by
  refine ⟨by decide, by decide, by decide⟩

/-! ## C6: streak is 0 when the most recent due date is uncompleted -/

/-- Walking across a block of `n` consecutive non-due dates consumes `n` fuel
and leaves the streak untouched. -/
theorem calcStreakLoop_skip (cap : Nat) (habit : Habit)
    (hc : List HabitCompletion) :
    ∀ (n : Nat) (streak : Nat) (d : Int) (fuel : Nat), streak ≤ cap →
      (∀ k : Nat, k < n → shouldShowHabitOnDate habit (d - (k : Int)) = false) →
      calcStreakLoop cap habit hc streak d (n + fuel) =
        calcStreakLoop cap habit hc streak (d - (n : Int)) fuel
  | 0, streak, d, fuel, _, _ => by simp
  | n + 1, streak, d, fuel, hcap, h => by
    have hn : n + 1 + fuel = (n + fuel) + 1 := by omega
    rw [hn, calcStreakLoop]
    have h0 : shouldShowHabitOnDate habit d = false := by
      have := h 0 (by omega)
      simpa using this
    simp only [h0, Bool.false_eq_true, if_false]
    rw [if_neg (by omega)]
    have step := calcStreakLoop_skip cap habit hc n streak (d - 1) fuel hcap
      (fun k hk => by
        have := h (k + 1) (by omega)
        have harith : d - 1 - (k : Int) = d - ((k : Nat) + 1 : Int) := by ring
        rw [harith]
        simpa using this)
    rw [step]
    have harith : d - 1 - (n : Int) = d - ((n + 1 : Nat) : Int) := by
      push_cast
      ring
    rw [harith]

/-- C6 (amended): for the analytics `calculateCurrentStreak` (any cap), the
result is `some 0` for every fuel when the habit has no completions, and when
the most recent due date `D` at or before `asOf` carries no completion, every
terminating run returns 0 and some sufficient fuel terminates with 0.
`HabitCard.tsx`'s `calculateStreak` violates the second guarantee because it
counts completions recorded on non-due dates (see the counterexample). -/
theorem c6_streak_zero_without_recent_completion (cap : Nat) (habit : Habit)
    (cs : List HabitCompletion) (asOf : Int) :
    ((cs.filter fun c => c.habit_id == habit.id).isEmpty = true →
      ∀ fuel, calculateCurrentStreak cap habit cs asOf fuel = some 0) ∧
    (∀ D : Int, D ≤ asOf → shouldShowHabitOnDate habit D = true →
      (∀ d, D < d → d ≤ asOf → shouldShowHabitOnDate habit d = false) →
      hasCompletionFor cs habit.id D = false →
      (∀ fuel r, calculateCurrentStreak cap habit cs asOf fuel = some r → r = 0) ∧
      (∃ fuel, calculateCurrentStreak cap habit cs asOf fuel = some 0)) := by
  constructor
  · intro h fuel
    rw [calculateCurrentStreak]
    simp [h]
  · intro D hD hdue hskip hnot
    by_cases hemp : (cs.filter fun c => c.habit_id == habit.id).isEmpty = true
    · constructor
      · intro fuel r hr
        rw [calculateCurrentStreak] at hr
        simp [hemp] at hr
        omega
      · refine ⟨1, ?_⟩
        rw [calculateCurrentStreak]
        simp [hemp]
    · simp only [Bool.not_eq_true] at hemp
      set n : Nat := (asOf - D).toNat with hn
      have hnD : asOf - (n : Int) = D := by omega
      have hblock : ∀ k : Nat, k < n →
          shouldShowHabitOnDate habit (asOf - (k : Int)) = false := by
        intro k hk
        exact hskip (asOf - (k : Int)) (by omega) (by omega)
      have hcompl : hasCompletionOn
          (cs.filter fun c => c.habit_id == habit.id) D = false := by
        rw [hasCompletionOn_filter]
        exact hnot
      constructor
      · intro fuel r hr
        rw [calculateCurrentStreak] at hr
        simp only [hemp, Bool.false_eq_true, if_false] at hr
        rcases Nat.lt_or_ge n fuel with hf | hf
        · obtain ⟨m, hm⟩ : ∃ m, fuel = n + (m + 1) := ⟨fuel - n - 1, by omega⟩
          rw [hm, calcStreakLoop_skip cap habit _ n 0 asOf (m + 1)
            (by omega) hblock, hnD, calcStreakLoop] at hr
          simp only [hcompl, hdue, if_true, Bool.false_eq_true, if_false,
            Option.some.injEq] at hr
          omega
        · obtain ⟨m, hm⟩ : ∃ m, n = fuel + m := ⟨n - fuel, by omega⟩
          have hblock' : ∀ k : Nat, k < fuel →
              shouldShowHabitOnDate habit (asOf - (k : Int)) = false :=
            fun k hk => hblock k (by omega)
          have : calcStreakLoop cap habit
              (cs.filter fun c => c.habit_id == habit.id) 0 asOf (fuel + 0) =
              calcStreakLoop cap habit _ 0 (asOf - (fuel : Int)) 0 :=
            calcStreakLoop_skip cap habit _ fuel 0 asOf 0 (by omega) hblock'
          rw [Nat.add_zero] at this
          rw [this] at hr
          exact absurd hr (by simp [calcStreakLoop])
      · refine ⟨n + 1, ?_⟩
        rw [calculateCurrentStreak]
        simp only [hemp, Bool.false_eq_true, if_false]
        rw [calcStreakLoop_skip cap habit _ n 0 asOf 1 (by omega) hblock, hnD,
          calcStreakLoop]
        simp [hcompl, hdue]

/-- Witness for `c6_streak_zero_without_recent_completion`: an alternate habit
created on day 0 with a single (future-dated) completion on day 5; as of day
1, the most recent due date is day 0, which carries no completion, and some
fuel makes the walk terminate with streak 0. -/
theorem c6_streak_zero_witness :
    ∃ fuel, calculateCurrentStreak 365
      { id := "a", frequency_type := "alternate", custom_days := none,
        created_at := 0, is_active := true }
      [⟨"a", 5⟩] 1 fuel = some 0 :=
  ((c6_streak_zero_without_recent_completion 365
      { id := "a", frequency_type := "alternate", custom_days := none,
        created_at := 0, is_active := true }
      [⟨"a", 5⟩] 1).2 0 (by omega) (by decide)
    (fun d h1 h2 => by
      have : d = 1 := by omega
      subst this
      decide)
    (by decide)).2

/-- C6 counterexample: the claim as stated fails on `HabitCard.tsx`'s
`calculateStreak`: alternate habit created day 10, one completion on day 11
(not a due date); the most recent due date at or before day 11 is day 10 and
carries no completion, yet the returned streak is 1, not 0. -/
theorem c6_habitcard_nonzero_streak :
    calculateStreak [⟨"h", 11⟩]
      { id := "h", frequency_type := "alternate", custom_days := none,
        created_at := 10, is_active := true } 11 10 = some 1 ∧
    shouldHaveHabitOnDate 10
      { id := "h", frequency_type := "alternate", custom_days := none,
        created_at := 10, is_active := true } = true ∧
    shouldHaveHabitOnDate 11
      { id := "h", frequency_type := "alternate", custom_days := none,
        created_at := 10, is_active := true } = false ∧
    hasCompletionFor [⟨"h", 11⟩] "h" 10 = false := by
  refine ⟨by decide, by decide, by decide, by decide⟩

/-! ## C5: degenerate windows and the planned = 0 rate convention -/

/-- Folding with a step that ignores the element returns the accumulator. -/
theorem foldl_ignore {α β : Type} : ∀ (l : List α) (acc : β),
    l.foldl (fun a _ => a) acc = acc
  | [], _ => rfl
  | _ :: xs, acc => foldl_ignore xs acc

/-- C5: aggregating over an empty habit set yields `planned = 0, completed =
0` (for the window aggregator, the rolling-window aggregator, and the
abandoned-habits ranking, which is empty); an inverted window (`start > end`)
runs zero iterations and yields the same zeros; and the rate ternary maps
`planned = 0` to the defined value 0 instead of `NaN`. -/
theorem c5_degenerate_windows (habits : List Habit) (habit : Habit)
    (cs : List HabitCompletion) (s e : Int) (days : Nat) (c : Nat) :
    getWeekStats s e [] cs = ⟨0, 0⟩ ∧
    getCompletionStats [] cs days e = ⟨0, 0⟩ ∧
    calculateAbandonedHabits [] cs s e = [] ∧
    (e < s →
      getWeekStats s e habits cs = ⟨0, 0⟩ ∧
      perHabitWindowCounts s e habit cs = ⟨0, 0⟩ ∧
      calculateAbandonedHabits habits cs s e = []) ∧
    completionRate c 0 = 0 := by
  refine ⟨?_, ?_, rfl, ?_, by simp [completionRate]⟩
  · rw [getWeekStats]
    simp only [List.foldl_nil]
    exact foldl_ignore _ _
  · rw [getCompletionStats]
    simp only [List.foldl_nil]
    exact foldl_ignore _ _
  · intro h
    have hrange := dateRange_of_inverted h
    have hper : ∀ hb : Habit, perHabitWindowCounts s e hb cs = ⟨0, 0⟩ := by
      intro hb
      rw [perHabitWindowCounts, hrange]
      rfl
    refine ⟨?_, hper habit, ?_⟩
    · rw [getWeekStats, hrange]
      rfl
    · have hpool : abandonedPool habits cs s e = [] := by
        rw [abandonedPool]
        have h0 : ∀ hb ∈ habits.filter (·.is_active),
            abandonedEntry cs s e hb = none := by
          intro hb _
          rw [abandonedEntry]
          simp only [hper hb]
          norm_num
        rw [List.filterMap_eq_nil_iff.mpr h0]
        rfl
      rw [calculateAbandonedHabits, hpool]
      rfl

/-- Witness for `c5_degenerate_windows` at a concrete inverted window. -/
theorem c5_degenerate_windows_witness :
    getWeekStats 7 3
      [{ id := "d", frequency_type := "daily", custom_days := none,
         created_at := 0, is_active := true }] [⟨"d", 5⟩] = ⟨0, 0⟩ :=
  ((c5_degenerate_windows
      [{ id := "d", frequency_type := "daily", custom_days := none,
         created_at := 0, is_active := true }]
      { id := "d", frequency_type := "daily", custom_days := none,
        created_at := 0, is_active := true }
      [⟨"d", 5⟩] 7 3 4 9).2.2.2.1 (by omega)).1

/-! ## C10: 0 ≤ completed ≤ planned and rates within [0, 100] -/

/-- One tally step preserves `completed ≤ planned`. -/
theorem tallyHabit_le (cs : List HabitCompletion) (d : Int) (acc : Stats)
    (habit : Habit) (h : acc.completed ≤ acc.planned) :
    (tallyHabit cs d acc habit).completed ≤ (tallyHabit cs d acc habit).planned := by
  rw [tallyHabit]
  split
  · simp only
    split <;> omega
  · exact h

/-- `completed ≤ planned` holds for every habits-fold starting from a state
satisfying it. -/
theorem foldl_tally_le (cs : List HabitCompletion) (d : Int)
    (habits : List Habit) (acc : Stats) (h : acc.completed ≤ acc.planned) :
    (habits.foldl (tallyHabit cs d) acc).completed ≤
      (habits.foldl (tallyHabit cs d) acc).planned :=
  foldl_invariant (fun st => st.completed ≤ st.planned) (tallyHabit cs d)
    (fun b a hb => tallyHabit_le cs d b a hb) habits acc h

/-- Every entry of the (unsorted) abandoned pool has `missed ≤ planned`,
positive `planned`, and a failure rate within [0, 100]. -/
theorem abandonedPool_bounds (habits : List Habit)
    (cs : List HabitCompletion) (s e : Int) :
    ∀ x ∈ abandonedPool habits cs s e,
      x.missedDays ≤ x.plannedDays ∧ 0 < x.plannedDays ∧
      0 ≤ x.failureRate ∧ x.failureRate ≤ 100 := by
  intro x hx
  rw [abandonedPool] at hx
  obtain ⟨hx, -⟩ := List.mem_filter.mp hx
  obtain ⟨hb, -, hf⟩ := List.mem_filterMap.mp hx
  rw [abandonedEntry] at hf
  simp only at hf
  split at hf
  · rename_i hp
    injection hf with hf
    subst hf
    refine ⟨Nat.sub_le _ _, hp, by positivity, ?_⟩
    set st := perHabitWindowCounts s e hb cs
    have h1 : ((st.planned - st.completed : Nat) : ℚ) ≤ (st.planned : ℚ) := by
      exact_mod_cast Nat.sub_le _ _
    have h2 : (0 : ℚ) < (st.planned : ℚ) := by exact_mod_cast hp
    have h3 := (div_le_one h2).mpr h1
    linarith
  · exact absurd hf (by simp)

/-- C10: each window-aggregation function keeps `completed ≤ planned` (the
completion counter is only bumped on pairs already counted as planned), so
`missed = planned - completed` stays within `[0, planned]` and every derived
failure or completion rate lies within [0, 100]. -/
theorem c10_counts_invariant (habits : List Habit) (habit : Habit)
    (cs : List HabitCompletion) (s e : Int) (days : Nat) (endDate : Int) :
    (getWeekStats s e habits cs).completed ≤ (getWeekStats s e habits cs).planned ∧
    (perHabitWindowCounts s e habit cs).completed ≤
      (perHabitWindowCounts s e habit cs).planned ∧
    (getCompletionStats habits cs days endDate).completed ≤
      (getCompletionStats habits cs days endDate).planned ∧
    (∀ x ∈ calculateAbandonedHabits habits cs s e,
      x.missedDays ≤ x.plannedDays ∧ 0 ≤ x.failureRate ∧ x.failureRate ≤ 100) ∧
    (∀ c p : Nat, c ≤ p → 0 ≤ completionRate c p ∧ completionRate c p ≤ 100) := by
  refine ⟨?_, ?_, ?_, ?_, ?_⟩
  · exact foldl_invariant (fun st => st.completed ≤ st.planned) _
      (fun b a hb => foldl_tally_le cs a habits b hb) (dateRange s e) ⟨0, 0⟩
      (Nat.le_refl 0)
  · exact foldl_invariant (fun st => st.completed ≤ st.planned) _
      (fun b a hb => tallyHabit_le cs a b habit hb) (dateRange s e) ⟨0, 0⟩
      (Nat.le_refl 0)
  · exact foldl_invariant (fun st => st.completed ≤ st.planned) _
      (fun b a hb => foldl_tally_le cs (endDate - (a : Int)) habits b hb)
      (List.range days) ⟨0, 0⟩ (Nat.le_refl 0)
  · intro x hx
    rw [calculateAbandonedHabits, List.mem_insertionSort] at hx
    obtain ⟨h1, -, h3, h4⟩ := abandonedPool_bounds habits cs s e x hx
    exact ⟨h1, h3, h4⟩
  · intro c p hcp
    rw [completionRate]
    split
    · rename_i hp
      have h2 : (0 : ℚ) < (p : ℚ) := by exact_mod_cast hp
      have h1 : (c : ℚ) ≤ (p : ℚ) := by exact_mod_cast hcp
      constructor
      · positivity
      · have h3 := (div_le_one h2).mpr h1
        linarith
    · norm_num

/-- Witness for `c10_counts_invariant` at a concrete ranking entry and rate. -/
theorem c10_counts_invariant_witness :
    (0 : ℚ) ≤ completionRate 1 2 ∧ completionRate 1 2 ≤ 100 :=
  (c10_counts_invariant []
    { id := "d", frequency_type := "daily", custom_days := none,
      created_at := 0, is_active := true } [] 0 0 0 0).2.2.2.2 1 2 (by omega)

/-! ## C4: the abandoned-habits ranking -/

/-- `rankedBefore` is total: the comparator orders any two entries. -/
instance : IsTotal AbandonedHabit rankedBefore := by
  constructor
  intro a b
  rw [rankedBefore, rankedBefore]
  rcases lt_trichotomy a.failureRate b.failureRate with h | h | h
  · exact Or.inr (Or.inl h)
  · rcases Nat.le_total b.missedDays a.missedDays with h2 | h2
    · exact Or.inl (Or.inr ⟨h, h2⟩)
    · exact Or.inr (Or.inr ⟨h.symm, h2⟩)
  · exact Or.inl (Or.inl h)

/-- `rankedBefore` is transitive. -/
instance : IsTrans AbandonedHabit rankedBefore := by
  constructor
  intro a b c hab hbc
  rw [rankedBefore] at hab hbc ⊢
  rcases hab with h1 | ⟨h1, h1'⟩ <;> rcases hbc with h2 | ⟨h2, h2'⟩
  · exact Or.inl (h2.trans h1)
  · exact Or.inl (h2 ▸ h1)
  · exact Or.inl (h1 ▸ h2)
  · exact Or.inr ⟨h1.trans h2, h2'.trans h1'⟩

/-- Tests whether an entry carries the given (failureRate, missed) sort key. -/
def keyTest (q : ℚ) (m : Nat) (x : AbandonedHabit) : Bool :=
  decide (x.failureRate = q) && decide (x.missedDays = m)

/-- Inserting an entry that carries the key places it in front of every
existing entry with that key (ties never pass it), so the key-class sublist
gains the new entry at its head. -/
theorem filter_orderedInsert_key (q : ℚ) (m : Nat) (x : AbandonedHabit)
    (hx : keyTest q m x = true) :
    ∀ l : List AbandonedHabit,
      (l.orderedInsert rankedBefore x).filter (keyTest q m) =
        x :: l.filter (keyTest q m)
  | [] => by simp [List.orderedInsert, hx]
  | b :: l => by
    rw [List.orderedInsert]
    split
    · simp [List.filter_cons, hx]
    · rename_i h
      have hb : keyTest q m b = false := by
        by_contra hb'
        rw [Bool.not_eq_false] at hb'
        apply h
        rw [rankedBefore]
        have hx1 : x.failureRate = q ∧ x.missedDays = m := by
          simpa [keyTest] using hx
        have hb1 : b.failureRate = q ∧ b.missedDays = m := by
          simpa [keyTest] using hb'
        exact Or.inr ⟨hx1.1.trans hb1.1.symm, le_of_eq (hb1.2.trans hx1.2.symm)⟩
      simp [List.filter_cons, hb, filter_orderedInsert_key q m x hx l]

/-- Inserting an entry that does not carry the key leaves the key-class
sublist unchanged. -/
theorem filter_orderedInsert_not_key (q : ℚ) (m : Nat) (x : AbandonedHabit)
    (hx : keyTest q m x = false) :
    ∀ l : List AbandonedHabit,
      (l.orderedInsert rankedBefore x).filter (keyTest q m) =
        l.filter (keyTest q m)
  | [] => by simp [List.orderedInsert, hx]
  | b :: l => by
    rw [List.orderedInsert]
    split
    · simp [List.filter_cons, hx]
    · simp [List.filter_cons, filter_orderedInsert_not_key q m x hx l]

/-- Stability of the comparator sort: for every sort key, the sublist of
entries carrying that key is unchanged by the sort — residual ties stay in
input order. -/
theorem filter_insertionSort_key (q : ℚ) (m : Nat) :
    ∀ l : List AbandonedHabit,
      (List.insertionSort rankedBefore l).filter (keyTest q m) =
        l.filter (keyTest q m)
  | [] => rfl
  | x :: l => by
    rw [List.insertionSort]
    cases hx : keyTest q m x
    · rw [filter_orderedInsert_not_key q m x hx (List.insertionSort rankedBefore l),
        filter_insertionSort_key q m l, List.filter_cons]
      simp [hx]
    · rw [filter_orderedInsert_key q m x hx (List.insertionSort rankedBefore l),
        filter_insertionSort_key q m l, List.filter_cons]
      simp [hx]

/-- C4: the abandoned-habits ranking contains no entry with `planned = 0`
or `failureRate = 0`; it is pairwise ordered by descending failure rate with
ties broken by descending missed count (`rankedBefore`); and for every sort
key the entries carrying it appear exactly as in the unsorted pool — i.e.
residual ties are resolved by stable input order.  Together with totality and
transitivity of `rankedBefore` this pins the output down uniquely, a
deterministic total order. -/
theorem c4_rank_by_failure (habits : List Habit) (cs : List HabitCompletion)
    (s e : Int) :
    (∀ x ∈ calculateAbandonedHabits habits cs s e,
      0 < x.plannedDays ∧ 0 < x.failureRate) ∧
    (calculateAbandonedHabits habits cs s e).Pairwise rankedBefore ∧
    (∀ (q : ℚ) (m : Nat),
      (calculateAbandonedHabits habits cs s e).filter (keyTest q m) =
        (abandonedPool habits cs s e).filter (keyTest q m)) := by
  refine ⟨?_, ?_, ?_⟩
  · intro x hx
    rw [calculateAbandonedHabits, List.mem_insertionSort] at hx
    refine ⟨(abandonedPool_bounds habits cs s e x hx).2.1, ?_⟩
    rw [abandonedPool, List.mem_filter] at hx
    simpa using hx.2
  · exact List.sorted_insertionSort rankedBefore (abandonedPool habits cs s e)
  · intro q m
    rw [calculateAbandonedHabits]
    exact filter_insertionSort_key q m (abandonedPool habits cs s e)

/-- Concrete habit pair for the `c4_rank_by_failure` witness. -/
def c4Habits : List Habit :=
  [{ id := "d", frequency_type := "daily", custom_days := none,
     created_at := 0, is_active := true },
   { id := "a", frequency_type := "alternate", custom_days := none,
     created_at := 0, is_active := true }]

/-- The ranking entry produced for the daily habit of `c4Habits` over the
window [0, 1] with no completions: missed 2 of 2, 100% failure. -/
def c4EntryD : AbandonedHabit :=
  ⟨{ id := "d", frequency_type := "daily", custom_days := none,
     created_at := 0, is_active := true }, 2, 2, 100⟩

/-- The ranking entry produced for the alternate habit of `c4Habits` over the
window [0, 1] with no completions: missed 1 of 1, 100% failure. -/
def c4EntryA : AbandonedHabit :=
  ⟨{ id := "a", frequency_type := "alternate", custom_days := none,
     created_at := 0, is_active := true }, 1, 1, 100⟩

/-- Witness for `c4_rank_by_failure`: a concrete two-habit ranking (both
habits at a 100% failure rate, ordered by the missed tie-break) with the
exclusion property checked on its first entry. -/
theorem c4_rank_by_failure_witness :
    0 < c4EntryD.plannedDays ∧ 0 < c4EntryD.failureRate := by
  have hlist : calculateAbandonedHabits c4Habits [] 0 1 = [c4EntryD, c4EntryA] := by
    norm_num +decide [calculateAbandonedHabits, abandonedPool, abandonedEntry,
      perHabitWindowCounts, dateRange, tallyHabit, shouldShowHabitOnDate,
      hasCompletionFor, c4Habits, c4EntryD, c4EntryA, List.insertionSort,
      List.orderedInsert, rankedBefore, List.filter, List.filterMap,
      List.range, List.range.loop, dayName]
  exact (c4_rank_by_failure c4Habits [] 0 1).1 c4EntryD
    (by rw [hlist]; exact List.mem_cons_self _ _)

/-! ## C8: day-granularity per-habit buckets -/

/-- Every entry of a per-habit day bucket comes from an active habit that is
due on the bucket's date, and its value is 100 or 0 according to the habit's
completion on that date. -/
theorem dayViewPerHabitPoint_mem (habits : List Habit) (selected : List String)
    (cs : List HabitCompletion) (date : Int) (p : String × ℚ)
    (hp : p ∈ dayViewPerHabitPoint habits selected cs date) :
    ∃ h, h ∈ habits ∧ h.is_active = true ∧ p.1 = h.id ∧
      shouldShowHabitOnDate h date = true ∧
      p.2 = (if hasCompletionFor cs h.id date then (100 : ℚ) else 0) := by
  rw [dayViewPerHabitPoint] at hp
  obtain ⟨h, hmem, hf⟩ := List.mem_filterMap.mp hp
  obtain ⟨hmem, hact⟩ := List.mem_filter.mp hmem
  split at hf
  · rename_i hguard
    injection hf with hf
    subst hf
    obtain ⟨-, hdue⟩ := Bool.and_eq_true_iff.mp hguard
    exact ⟨h, hmem, by simpa using hact, rfl, hdue, rfl⟩
  · exact absurd hf (by simp)

/-- Each emitted bucket holds the per-habit data point of its own date. -/
theorem chartDataDayPerHabit_snd (habits : List Habit) (selected : List String)
    (cs : List HabitCompletion) (endDate : Int) (range : Nat)
    (b : Int × List (String × ℚ))
    (hb : b ∈ chartDataDayPerHabit habits selected cs endDate range) :
    b.2 = dayViewPerHabitPoint habits selected cs b.1 := by
  rw [chartDataDayPerHabit] at hb
  obtain ⟨i, -, rfl⟩ := List.mem_map.mp hb
  rfl

/-- C8: in day-granularity per-habit mode, every bucket entry belongs to a
habit that is due on the bucket's date and carries value 100 when a
completion for that habit exists on that date and 0 otherwise; and (with
distinct habit ids) a habit that is not due on the bucket's date has no entry
in that bucket. -/
theorem c8_day_buckets_only_due (habits : List Habit) (selected : List String)
    (cs : List HabitCompletion) (endDate : Int) (range : Nat) :
    (∀ b ∈ chartDataDayPerHabit habits selected cs endDate range, ∀ p ∈ b.2,
      ∃ h, h ∈ habits ∧ h.is_active = true ∧ p.1 = h.id ∧
        shouldShowHabitOnDate h b.1 = true ∧
        p.2 = (if hasCompletionFor cs h.id b.1 then (100 : ℚ) else 0)) ∧
    ((habits.map (·.id)).Nodup →
      ∀ b ∈ chartDataDayPerHabit habits selected cs endDate range,
        ∀ h ∈ habits, shouldShowHabitOnDate h b.1 = false →
          ∀ p ∈ b.2, p.1 ≠ h.id) := by
  constructor
  · intro b hb p hp
    rw [chartDataDayPerHabit_snd habits selected cs endDate range b hb] at hp
    exact dayViewPerHabitPoint_mem habits selected cs b.1 p hp
  · intro hnodup b hb h hmem hnotdue p hp hid
    rw [chartDataDayPerHabit_snd habits selected cs endDate range b hb] at hp
    obtain ⟨h', hmem', -, hid', hdue', -⟩ :=
      dayViewPerHabitPoint_mem habits selected cs b.1 p hp
    have : h' = h :=
      List.inj_on_of_nodup_map hnodup hmem' hmem (by rw [← hid', hid])
    rw [this] at hdue'
    rw [hnotdue] at hdue'
    exact Bool.false_ne_true hdue'

/-- Concrete daily habit for the `c8_day_buckets_only_due` witness. -/
def c8Habit : Habit :=
  { id := "d", frequency_type := "daily", custom_days := none,
    created_at := 0, is_active := true }

/-- Witness for `c8_day_buckets_only_due` at a concrete chart. -/
theorem c8_day_buckets_only_due_witness :
    ∃ h, h ∈ [c8Habit] ∧ h.is_active = true ∧ ("d", (0 : ℚ)).1 = h.id ∧
      shouldShowHabitOnDate h ((1 : Int), [("d", (0 : ℚ))]).1 = true ∧
      ("d", (0 : ℚ)).2 =
        (if hasCompletionFor [] h.id ((1 : Int), [("d", (0 : ℚ))]).1
          then (100 : ℚ) else 0) :=
  (c8_day_buckets_only_due [c8Habit] ["d"] [] 1 0).1
    ((1 : Int), [("d", (0 : ℚ))]) (by decide) ("d", (0 : ℚ)) (by decide)

/-! ## C9: determinism and call-order independence of the core -/

/-- C9: running a call sequence maps each invocation independently through
the pure dispatcher: whatever the surrounding calls and their order, position
`i` of the output depends only on position `i` of the input, so calling any
component twice with the same immutable inputs (same current date included)
yields identical output and no hidden state leaks between calls. -/
theorem c9_call_order_independence (calls₁ calls₂ : List CoreCall) (i : Nat)
    (h : calls₁[i]? = calls₂[i]?) :
    (runCalls calls₁)[i]? = (runCalls calls₂)[i]? := by
  rw [runCalls, runCalls, List.getElem?_map, List.getElem?_map, h]

/-- Witness for `c9_call_order_independence`: the same schedule query gives
the same answer whether or not other calls follow it. -/
theorem c9_call_order_independence_witness :
    (runCalls [CoreCall.isDueQ
      { id := "d", frequency_type := "daily", custom_days := none,
        created_at := 0, is_active := true } 0])[0]? =
    (runCalls [CoreCall.isDueQ
      { id := "d", frequency_type := "daily", custom_days := none,
        created_at := 0, is_active := true } 0,
      CoreCall.aggQ 0 1 [] []])[0]? :=
  c9_call_order_independence _ _ 0 rfl

end Habitos
